import Mathlib

/-!
Verification of the infoswitch.voip Yate external-module client library.

The definitions below are a shallow embedding of the JavaScript source in
src/lib/Misc.js, src/lib/YateChannel.js and src/lib/Utils.js.  JS strings
are modelled as lists of natural numbers (their UTF-16 code units), JS
objects holding message parameters as association lists, and stateful
methods as functions returning the new state together with the list of
messages they dispatch to the engine.
-/

/-- A JS string viewed as the list of its UTF-16 code units. -/
abbrev ByteStr := List Nat

/-- Code units of a Lean string literal, used for readable constants. -/
def bytes (s : String) : ByteStr := s.data.map Char.toNat

/-!
## Codec: escape / unescape (src/lib/Misc.js lines 72-105)
-/

/-- One step of the ExtModule escape loop (src/lib/Misc.js, escape,
    lines 72-87): bytes below 0x20 and byte 0x3A become a percent pair with
    0x40 added, byte 0x25 doubles, every other byte passes through.  The
    argument is a byte, i.e. it already went through the
    Buffer(str, "ascii") conversion. -/
def escapeByte (c : Nat) : ByteStr :=
  if c < 32 ∨ c = 58 then [37, c + 64]
  else if c = 37 then [37, 37]
  else [c]

/-- ExtModule protocol escape (src/lib/Misc.js lines 72-87).  The
    Buffer(str, "ascii") conversion keeps the low 8 bits of every code
    unit, modelled by the mod 256. -/
def escape (s : ByteStr) : ByteStr :=
  (s.map (· % 256)).flatMap escapeByte

/-- The unescape loop passes c - 64 to String.fromCharCode, which applies
    ToUint16; c - 64 may be negative, modelled here over Nat by adding
    65536 first. -/
def fromCharCodeSub64 (c : Nat) : Nat := (c + 65536 - 64) % 65536

/-- Loop body of the ExtModule unescape (src/lib/Misc.js lines 92-105) over
    the ascii-converted byte list.  On a percent byte the following byte is
    consumed: a second percent yields a literal percent, any other byte
    yields that byte minus 0x40.  A percent as the very last byte makes the
    loop read one position past the buffer, so String.fromCharCode receives
    undefined - 64 = NaN, which ToUint16 converts to 0: the output gains a
    NUL character. -/
def unescapeLoop : ByteStr → ByteStr
  | [] => []
  | c :: rest =>
    if c = 37 then
      match rest with
      | [] => [0]
      | c2 :: rest2 =>
        (if c2 ≠ 37 then fromCharCodeSub64 c2 else 37) :: unescapeLoop rest2
    else c :: unescapeLoop rest

/-- ExtModule protocol unescape (src/lib/Misc.js lines 92-105), including
    the Buffer(str, "ascii") conversion of the input. -/
def unescape (s : ByteStr) : ByteStr := unescapeLoop (s.map (· % 256))

/-!
## Codec: splitting (src/lib/Misc.js lines 111-126 and line 1258)
-/

/-- One step of splitting: either start a new empty part (the character is
    the separator) or extend the first part of the already-split tail. -/
def jsSplitCons (d c : Nat) : List ByteStr → List ByteStr
  | [] => [[]]
  | h :: t => if c = d then [] :: h :: t else (c :: h) :: t

/-- JS String.prototype.split with a one-character separator and no limit,
    as applied to each received line (src/lib/Misc.js, _process_line:
    line.split over the colon). -/
def jsSplit (d : Nat) : ByteStr → List ByteStr
  | [] => [[]]
  | c :: rest => jsSplitCons d c (jsSplit d rest)

/-- splitString (src/lib/Misc.js lines 111-126): with a limit, consume up to
    limit - 1 separators and keep the tail whole; a missing separator stops
    early; limit 0 is falsy and falls back to the built-in split. -/
def splitString (s : ByteStr) (d : Nat) : Nat → List ByteStr
  | 0 => jsSplit d s
  | 1 => [s]
  | n + 2 =>
    if d ∈ s then
      s.takeWhile (· ≠ d) :: splitString ((s.dropWhile (· ≠ d)).tail) d (n + 1)
    else [s]

/-!
## Codec: message frames (src/lib/Misc.js lines 153-177 and 224-256)
-/

/-- The request frame tag. -/
def reqTag : ByteStr := bytes "%%>message"

/-- The reply frame tag. -/
def repTag : ByteStr := bytes "%%<message"

/-- The boolean literal written for processed replies. -/
def strTrue : ByteStr := bytes "true"

/-- The boolean literal written for unprocessed replies. -/
def strFalse : ByteStr := bytes "false"

/-- The parameter key silently discarded by decode_message. -/
def strHandlers : ByteStr := bytes "handlers"

/-- A message as held by the host before encoding (src/lib/Misc.js): the
    dollar-prefixed reserved attributes plus the remaining enumerable keys
    as the parameter dictionary.  A parameter value of none models JS
    undefined or null.  An empty typ or id models a missing (falsy)
    attribute, which encode_message fills in; time 0 models a missing or
    zero (falsy) time.  Parameters are kept in insertion order; JS for-in
    additionally fronts array-index-like keys, so theorems about encoding
    restrict parameter keys to non-numeric strings. -/
structure Msg where
  name : ByteStr
  typ : ByteStr
  id : ByteStr
  retvalue : ByteStr
  time : Nat
  processed : Option Bool
  params : List (ByteStr × Option ByteStr)
deriving DecidableEq

/-- Decimal digit string of a natural number (the JS number-to-string
    conversion applied to the integral time value).  The fuel argument makes
    the recursion structural; the top entry always passes enough. -/
def natToDecAux : Nat → Nat → ByteStr
  | 0, _ => []
  | fuel + 1, n => if n = 0 then [] else natToDecAux fuel (n / 10) ++ [n % 10 + 48]

/-- JS String(n) for a natural number. -/
def natToDec (n : Nat) : ByteStr :=
  if n = 0 then [48] else natToDecAux (n + 1) n

/-- JS unary plus applied to the third frame field, restricted to the forms
    this codec meets: the empty string coerces to 0, a pure decimal digit
    string to its value, anything else to NaN (modelled as none). -/
def parseNatDec (s : ByteStr) : Option Nat :=
  if s = [] then some 0
  else if s.all (fun b => decide (48 ≤ b) && decide (b ≤ 57)) then
    some (s.foldl (fun acc b => acc * 10 + (b - 48)) 0)
  else none

/-- encode_message (src/lib/Misc.js lines 224-256).  now stands for the
    Math.floor(Date.now() / 1000) fallback and gid for the makeId() fallback
    used when $time or $id are missing.  Parameter keys whose value is
    undefined or null, or whose first byte is the dollar sign (they would
    name a reserved attribute), are skipped, exactly as the for-in loop
    does. -/
def encode_message (now : Nat) (gid : ByteStr) (m : Msg) : ByteStr :=
  let typ := if m.typ = [] then reqTag else m.typ
  let id := if m.id = [] then gid else m.id
  let field2 :=
    match m.processed with
    | some b => if b then strTrue else strFalse
    | none => natToDec (if m.time = 0 then now else m.time)
  typ ++ (58 :: id) ++ (58 :: field2) ++ (58 :: m.name) ++
    (58 :: escape m.retvalue) ++
    m.params.flatMap (fun kv =>
      match kv.2 with
      | none => []
      | some v =>
        if kv.1.head? = some 36 then []
        else 58 :: (escape kv.1 ++ 61 :: escape v))

/-- A decoded message (src/lib/Misc.js decode_message, lines 153-177).
    time is the numeric coercion of the third frame field for requests
    (none modelling NaN) and processed its comparison with the true literal
    for replies.  Parameters are kept as the decoded key-value list in frame
    order; the JS object collapses duplicate keys, which coincides with this
    list whenever the keys are distinct. -/
structure DMsg where
  name : ByteStr
  typ : ByteStr
  id : ByteStr
  retvalue : ByteStr
  time : Option Nat
  processed : Option Bool
  params : List (ByteStr × ByteStr)
deriving DecidableEq

/-- decode_message (src/lib/Misc.js lines 153-177) applied to the colon
    parts of a line.  Fewer than five parts, or an extra part without an
    equals sign, make the JS code call unescape(undefined), which throws
    when Buffer converts it; both are modelled as none. -/
def decode_message (parts : List ByteStr) : Option DMsg :=
  if parts.length < 5 then none
  else if (parts.drop 5).any (fun part => decide (61 ∉ part)) then none
  else
    let typ := parts.getD 0 []
    let p2 := parts.getD 2 []
    some
      { name := parts.getD 3 []
        typ := typ
        id := parts.getD 1 []
        retvalue := unescape (parts.getD 4 [])
        time := if typ = reqTag then parseNatDec p2 else none
        processed := if typ = reqTag then none else some (decide (p2 = strTrue))
        params := ((parts.drop 5).map (fun part =>
            let p := splitString part 61 2
            (unescape (p.getD 0 []), unescape (p.getD 1 [])))).filter
          (fun kv => decide (kv.1 ≠ strHandlers)) }

/-!
## Call-fork planner (src/lib/YateChannel.js lines 25-76)
-/

/-- JS truthy-or on an optional string against a default (the pattern
    a.field or fallback): none and the empty string are falsy. -/
def jsOr (o : Option String) (d : String) : String :=
  match o with
  | none => d
  | some s => if s = "" then d else s

/-- JS truthy-or between two optional strings. -/
def jsOrOpt (a b : Option String) : Option String :=
  match a with
  | none => b
  | some s => if s = "" then b else some s

/-- ASCII lowercasing of one character (the protocol strings this library
    meets are ASCII, where JS toLowerCase adds 32 to capital letters). -/
def charLower (c : Char) : Char :=
  if 65 ≤ c.toNat ∧ c.toNat ≤ 90 then Char.ofNat (c.toNat + 32) else c

/-- JS String.prototype.toLowerCase restricted to ASCII. -/
def jsToLower (s : String) : String := String.mk (s.data.map charLower)

/-- A fork route (src/lib/YateChannel.js lines 14-23). -/
structure Route where
  fullroute : Option String
  protocol : Option String
  host : String
  caller : Option String
  called : Option String
  formats : Option String
  line : Option String
  forward_timeout : Option Nat
deriving DecidableEq

/-- The parameter entries one route target contributes at a given callto
    position (src/lib/YateChannel.js lines 63-73). -/
def routeEntries (caller called : String) (pos : Nat) (r : Route) :
    List (String × String) :=
  let caller_out := jsOr r.caller (jsOr caller "")
  let called_out := jsOr r.called called
  let proto := jsToLower (jsOr r.protocol "sip")
  let called_full := (if proto = "sip" then "sip:" else "") ++ called_out
  let pfx := "callto." ++ Nat.repr pos
  [(pfx, jsOr r.fullroute (proto ++ "/" ++ called_full ++ "@" ++ r.host)),
   (pfx ++ ".caller", caller_out),
   (pfx ++ ".callername", caller_out),
   (pfx ++ ".domain", r.host),
   (pfx ++ ".called", called_out)] ++
  (match r.formats with
   | some f => if f = "" then [] else [(pfx ++ ".formats", f)]
   | none => []) ++
  (match r.line with
   | some l => if l = "" then [] else [(pfx ++ ".line", l)]
   | none => [])

/-- The group separator entry written before a route target
    (src/lib/YateChannel.js lines 52-61). -/
def sepEntry (pos : Nat) (r : Route) : String × String :=
  ("callto." ++ Nat.repr pos,
   match r.forward_timeout with
   | some ft => if ft = 0 then "|" else "|drop=" ++ Nat.repr (ft + 3000)
   | none => "|")

/-- Body of the fork for-loop (src/lib/YateChannel.js lines 36-74).  The
    loop variable index is both the route selector (routes at position
    index - 1 is read at the top of each iteration) and the callto position
    counter: inserting a group separator increments it inside the body, and
    the for-update increments it again.  The fuel argument only makes the
    recursion structural; the loop advances index by at least one per
    iteration and stops once index exceeds the route count, so any fuel of
    at least routes.length + 1 is enough. -/
def forkLoop (routes : List Route) (caller called : String) :
    Nat → Nat → List (String × String)
  | 0, _ => []
  | fuel + 1, index =>
    if index ≤ routes.length then
      match routes[index - 1]? with
      | none => []
      | some r =>
        if 1 < index then
          sepEntry index r :: routeEntries caller called (index + 1) r ++
            forkLoop routes caller called fuel (index + 2)
        else
          routeEntries caller called index r ++
            forkLoop routes caller called fuel (index + 1)
    else []

/-- fork (src/lib/YateChannel.js lines 25-76): translate a route list into
    the callfork parameter dictionary. -/
def fork (routes : List Route) (caller called : String) :
    List (String × String) :=
  ("$retvalue", "fork") :: ("fork.stop", "busy") ::
    forkLoop routes caller called (routes.length + 1) 1

/-!
## Channel state machine (src/lib/YateChannel.js lines 111-535)
-/

/-- A disconnect cause: SIP code plus reason text
    (src/lib/YateChannel.js).  The JS code field is a number or a numeric
    string compared with loose equality, so both behave as the numeric
    value, modelled as Nat. -/
structure Cause where
  code : Nat
  text : String
deriving DecidableEq

/-- Per-channel state (src/lib/YateChannel.js Channel).  The peer reference
    is an index into a channel store, following the arena representation;
    the timeout timer is reduced to whether one is armed; hasCallRoute
    records whether a call_route message is attached (routing mode). -/
structure Chan where
  chan : String
  routed : Bool
  terminated : Bool
  hasCallRoute : Bool
  connectTime : Option Int
  disconnectTime : Option Int
  saved_cause : Option Cause
  peer : Option Nat
  timerArmed : Bool
deriving DecidableEq

/-- A store of channels indexed by arena id. -/
abbrev ChanStore := Nat → Option Chan

/-- JS falsy test on a stored timestamp (undefined or 0). -/
def falsyTime : Option Int → Bool
  | none => true
  | some t => decide (t = 0)

/-- Channel.prototype.getDuration (src/lib/YateChannel.js lines 297-301). -/
def getDuration (c : Chan) : Int :=
  if falsyTime c.connectTime || falsyTime c.disconnectTime then 0
  else c.disconnectTime.getD 0 - c.connectTime.getD 0

/-- The saved cause of the peer channel when a peer with one exists
    (the this.peer and this.peer.saved_cause conjunction in
    src/lib/YateChannel.js line 319). -/
def peerSavedCause (st : ChanStore) (c : Chan) : Option Cause :=
  match c.peer with
  | none => none
  | some i =>
    match st i with
    | none => none
    | some p => p.saved_cause

/-- Channel.prototype.getDisconnectCause (src/lib/YateChannel.js lines
    308-324). -/
def getDisconnectCause (st : ChanStore) (c : Chan) : Option Cause :=
  match c.saved_cause with
  | none => none
  | some cause =>
    if 0 < getDuration c then some ⟨200, "Normal call clearing"⟩
    else if cause.code = 487 then
      match peerSavedCause st c with
      | some pc => some pc
      | none => some cause
    else some cause

/-- The PBX configuration fields the channel operations consult
    (src/lib/Misc.js YateExt constructor). -/
structure PbxCfg where
  callTimeout : Nat
  callSetupTimeout : Nat
  rtpForward : Bool
deriving DecidableEq

/-- A message dispatched to the engine on behalf of a channel. -/
inductive ChanWire
  | routeReply (processed : Bool) (params : List (String × String))
  | callDrop (chan reason : String)
  | chanConnect (chan target : String)
  | chanRecord (chan : String) (legA legB : Option String)
      (maxlen : Option Nat)
deriving DecidableEq

/-- YateExt.prototype.routeCall (src/lib/Misc.js lines 720-728): on a
    positive reply, when RTP forwarding is enabled and the inbound route
    offered rtp_forward=possible, an rtp_forward=yes parameter is added. -/
def routeCallParams (rtpForward rtpPossible result : Bool)
    (params : List (String × String)) : List (String × String) :=
  if result && rtpForward && rtpPossible then params ++ [("rtp_forward", "yes")]
  else params

/-- Channel.prototype._doTerminate (src/lib/YateChannel.js lines 219-237):
    idempotent terminal transition.  Saves the cause when none is saved yet,
    cancels the timer, marks the channel terminated and stamps the
    disconnect time.  The end event emission and listener removal are
    event-plane effects with no wire traffic. -/
def doTerminate (now : Int) (c : Chan) (cause : Cause) : Chan :=
  if c.terminated then c
  else
    { c with
      saved_cause := some (c.saved_cause.getD cause)
      timerArmed := false
      terminated := true
      disconnectTime := some now }

/-- Channel.prototype.terminate (src/lib/YateChannel.js lines 275-291):
    no-op when already terminated; otherwise run _doTerminate, reply false
    to a still-pending call.route, and dispatch call.drop. -/
def terminate (cfg : PbxCfg) (rtpPossible : Bool) (now : Int) (c : Chan)
    (cause? : Option Cause) : Chan × List ChanWire :=
  if c.terminated then (c, [])
  else
    let cause := cause?.getD ⟨487, "Request Terminated"⟩
    let c1 := doTerminate now c cause
    let routeWire :=
      if !c1.routed && c1.hasCallRoute then
        [ChanWire.routeReply false (routeCallParams cfg.rtpForward rtpPossible false [])]
      else []
    let c2 := if !c1.routed && c1.hasCallRoute then { c1 with routed := true } else c1
    (c2, routeWire ++ [ChanWire.callDrop c.chan cause.text])

/-- Channel.prototype.setTimeout (src/lib/YateChannel.js lines 255-270):
    the isLive guard only emits an error on a terminated channel; otherwise
    the timer is re-armed.  Nothing reaches the wire until the timer
    fires (and the fire path re-checks isLive). -/
def setTimeoutOp (c : Chan) : Chan × List ChanWire :=
  if c.terminated then (c, [])
  else ({ c with timerArmed := true }, [])

/-- Channel.prototype.connectToChannel (src/lib/YateChannel.js lines
    336-346): both channels must be live; dispatch chan.connect and link the
    two as peers (setPeer is symmetric).  ic and ip are the arena ids of the
    two channels. -/
def connectToChannel (c p : Chan) (ic ip : Nat) :
    Chan × Chan × List ChanWire :=
  if c.terminated then (c, p, [])
  else if p.terminated then (c, p, [])
  else ({ c with peer := some ip }, { p with peer := some ic },
        [ChanWire.chanConnect c.chan p.chan])

/-- Channel.prototype.recordAudio (src/lib/YateChannel.js lines 351-355)
    with YateExt.prototype.chanRecord (src/lib/Misc.js lines 838-859). -/
def recordAudio (c : Chan) (fileA fileB : Option String)
    (maxlen : Option Nat) : List ChanWire :=
  if c.terminated then []
  else [ChanWire.chanRecord c.chan fileA fileB maxlen]

/-- A call destination (src/lib/Misc.js makeCall comment and
    src/lib/YateChannel.js routeToDestination). -/
structure Dest where
  called : Option String
  caller : Option String
  routes : List Route
  timeout : Option Nat
  setupTimeout : Option Nat
deriving DecidableEq

/-- Channel.prototype.routeToDestination (src/lib/YateChannel.js lines
    367-472), immediate effects: the isLive / routing-mode / not-yet-routed
    guards (each failing guard only emits an error), marking the channel
    routed, and replying to the pending call.route with the fork parameters
    plus maxcall and the over-budgeted timeout.  The event subscriptions it
    registers react to later engine messages and carry no wire traffic of
    their own.  routeCalled is the called number of the pending call.route
    message. -/
def routeToDestination (cfg : PbxCfg) (rtpPossible : Bool) (c : Chan)
    (dest : Dest) (routeCalled : String) : Chan × List ChanWire :=
  if c.terminated then (c, [])
  else if !c.hasCallRoute then (c, [])
  else if c.routed then (c, [])
  else
    let timeout := match dest.timeout with
                   | some t => if t = 0 then cfg.callTimeout else t
                   | none => cfg.callTimeout
    let setup := match dest.setupTimeout with
                 | some t => if t = 0 then cfg.callSetupTimeout else t
                 | none => cfg.callSetupTimeout
    let called := jsOr dest.called routeCalled
    let fp := fork dest.routes (jsOr dest.caller "") called ++
              [("maxcall", Nat.repr setup),
               ("timeout", Nat.repr (timeout + setup))]
    ({ c with routed := true },
     [ChanWire.routeReply true (routeCallParams cfg.rtpForward rtpPossible true fp)])

/-- Channel.prototype.routeToIVR (src/lib/YateChannel.js lines 477-532),
    immediate effects: same guards, reply with a dumb-channel route and mark
    the channel routed.  The onConnectedOnce subscription acts only on a
    later engine event. -/
def routeToIVR (cfg : PbxCfg) (rtpPossible : Bool) (c : Chan) :
    Chan × List ChanWire :=
  if c.terminated then (c, [])
  else if !c.hasCallRoute then (c, [])
  else if c.routed then (c, [])
  else
    ({ c with routed := true },
     [ChanWire.routeReply true
        (routeCallParams cfg.rtpForward rtpPossible true [("$retvalue", "dumb/")])])

/-- Outcome of Channel.prototype.onsafe (src/lib/YateChannel.js lines
    165-182). -/
inductive SubscribeResult
  | registered
  | immediateEnd (cause : Option Cause)
  | errorTerminated
deriving DecidableEq

/-- Channel.prototype.onsafe: register the handler on a live channel; on a
    terminated channel the end event handler is invoked immediately (on the
    next tick) with the saved disconnect cause, any other event is an
    error. -/
def onsafe (st : ChanStore) (c : Chan) (ev : String) : SubscribeResult :=
  if !c.terminated then .registered
  else if ev = "end" then .immediateEnd (getDisconnectCause st c)
  else .errorTerminated

/-!
## IVR sound queue (src/lib/YateChannel.js lines 537-695)
-/

/-- A queued IVR sound as discriminated by playNext (src/lib/YateChannel.js
    lines 580-632).  nonObject covers enqueued values failing the typeof
    check; path covers objects with a truthy path; tone covers objects with
    a falsy path and a truthy tone, its ms field being none when not a
    number; unrecognized covers objects with neither. -/
inductive Sound
  | nonObject
  | path (p : String)
  | tone (name : String) (ms : Option Int)
  | unrecognized
deriving DecidableEq

/-- A chan.attach dispatch produced by the IVR (chanPlaywave and chanTonegen
    in src/lib/Misc.js both masquerade a chan.attach on the channel). -/
inductive AttachWire
  | wave (source : String)
  | tone (source : String)
deriving DecidableEq

/-- IVR.prototype.playNext (src/lib/YateChannel.js lines 580-632) on a live
    channel: the while loop skips invalid heads and stops at the first sound
    it can play.  Returns the remaining queue, the chan.attach dispatches
    produced, and the tone timer duration when one was armed.  Note the
    source attaches the tone generator before validating ms, so a tone with
    an invalid duration still dispatches its attach before being skipped. -/
def playNext : List Sound → List Sound × List AttachWire × Option Int
  | [] => ([], [], none)
  | .nonObject :: rest => playNext rest
  | .path p :: rest => (.path p :: rest, [.wave ("wave/play/" ++ p)], none)
  | .tone n ms :: rest =>
    (match ms with
     | some m =>
       if 0 < m then (.tone n ms :: rest, [.tone ("tone/" ++ n)], some m)
       else ((playNext rest).1,
             .tone ("tone/" ++ n) :: (playNext rest).2.1,
             (playNext rest).2.2)
     | none => ((playNext rest).1,
                .tone ("tone/" ++ n) :: (playNext rest).2.1,
                (playNext rest).2.2))
  | .unrecognized :: rest => playNext rest

/-- IVR.prototype.enqueue (src/lib/YateChannel.js lines 643-663): the sound
    is appended to the queue (the typeof assertion is console.assert, which
    only logs). -/
def enqueue (q : List Sound) (s : Sound) : List Sound := q ++ [s]

/-- The comfort-noise attach dispatched when the queue empties after a
    played sound (src/lib/YateChannel.js lines 561-564). -/
def silenceAttach : AttachWire := .tone "tone/silence"

/-- Drain an IVR queue to completion: playNext, then each chan.notify (sent
    by the engine when a file finishes, or synthesized by the tone timer)
    shifts the head; an empty remainder attaches comfort silence and emits
    queue-empty; a queue emptied purely by skipping invalid heads inside
    playNext stops silently, since nothing is playing and no notify will
    arrive (src/lib/YateChannel.js lines 556-568 and 580-632).  The fuel
    argument makes the recursion structural; the remainder shrinks by at
    least one per notify, so fuel equal to the queue length is enough. -/
def drainFuel : Nat → List Sound → List AttachWire
  | 0, _ => []
  | fuel + 1, q =>
    if (playNext q).1 = [] then (playNext q).2.1
    else if (playNext q).1.tail.isEmpty then
      (playNext q).2.1 ++ [silenceAttach]
    else (playNext q).2.1 ++ drainFuel fuel (playNext q).1.tail

/-- The full attach trace of playing a queue from its head to exhaustion. -/
def drain (q : List Sound) : List AttachWire := drainFuel q.length q

/-- The attaches a single queue element causes: every path and every tone
    dispatches exactly one attach (tones even when their ms is invalid),
    non-objects and unrecognized objects none. -/
def soundAttaches : Sound → List AttachWire
  | .nonObject => []
  | .unrecognized => []
  | .path p => [.wave ("wave/play/" ++ p)]
  | .tone n _ => [.tone ("tone/" ++ n)]

/-- Whether playNext can actually play a sound (stop the skip loop on it):
    a path, or a tone with a positive numeric ms. -/
def playable : Sound → Bool
  | .path _ => true
  | .tone _ (some m) => decide (0 < m)
  | _ => false

/-- Modelled from the claim wording of C9: the attach order the claim
    predicts, namely the enqueue order restricted to valid sounds, with
    invalid items producing no attach of their own. -/
def c9ClaimedTrace (q : List Sound) : List AttachWire :=
  (q.filter playable).flatMap soundAttaches

/-!
## Handshake readiness gate (src/lib/Misc.js lines 497-573)
-/

/-- The installed message handlers and their priorities (src/lib/Misc.js
    install_list, lines 38-42). -/
def install_list : List (String × Nat) :=
  [("call.route", 10), ("user.auth", 10), ("user.register", 10)]

/-- The watched messages (src/lib/Misc.js watch_list, lines 47-56). -/
def watch_list : List String :=
  ["call.execute", "user.login", "user.unregister", "user.notify",
   "chan.connected", "chan.hangup", "chan.notify", "chan.dtmf"]

/-- State of one install_or_watch confirmation listener created by
    YateExt.prototype.connect (src/lib/Misc.js lines 524-549) together with
    the session readiness flag it gates.  total is the JS countdown
    variable (an integer that keeps decreasing past zero), listening whether
    the closure is still attached to the confirm events, currentSocket
    whether the closure socket still equals the session socket. -/
structure Handshake where
  total : Int
  listening : Bool
  currentSocket : Bool
  initComplete : Bool
deriving DecidableEq

/-- Events affecting one confirmation listener. -/
inductive HsEvent
  | confirm
  | socketReplaced
  | disconnected
deriving DecidableEq

/-- One step: the install_or_watch body on install-confirm or watch-confirm
    (src/lib/Misc.js lines 527-538), socket replacement by a reconnect, and
    the disconnected cleanup (lines 541-549 and 553-556). -/
def hsStep (s : Handshake) (e : HsEvent) : Handshake × Bool :=
  match e with
  | .confirm =>
    if !s.listening then (s, false)
    else if !s.currentSocket then ({ s with listening := false }, false)
    else
      let t := s.total - 1
      if t = 0 then ({ s with total := t, initComplete := true }, true)
      else ({ s with total := t }, false)
  | .socketReplaced => ({ s with currentSocket := false }, false)
  | .disconnected => ({ s with listening := false, initComplete := false }, false)

/-- Run a trace of events, counting connected emissions. -/
def hsRun (s : Handshake) : List HsEvent → Handshake × Nat
  | [] => (s, 0)
  | e :: es =>
    ((hsRun (hsStep s e).1 es).1,
     (if (hsStep s e).2 then 1 else 0) + (hsRun (hsStep s e).1 es).2)

/-- The fresh listener state right after the install and watch requests were
    sent on a new socket (src/lib/Misc.js lines 525-538). -/
def hsInit : Handshake :=
  { total := install_list.length + watch_list.length
    listening := true
    currentSocket := true
    initComplete := false }

/-!
## Carrier trunk registry (src/lib/Misc.js lines 395-466, src/lib/Utils.js)
-/

/-- A carrier trunk as passed by the host (README and the setCarriers
    comment in src/lib/Misc.js lines 391-394). -/
structure DTrunk where
  host : String
  port : Option Nat
  username : Option String
  password : Option String
  auth_name : Option String
  auth_domain : Option String
deriving DecidableEq

/-- A stored trunk: the passed fields, the derived account key saved into
    the entry, and the runtime active flag (absent modelled as false). -/
structure STrunk where
  fields : DTrunk
  account : String
  active : Bool
deriving DecidableEq

/-- JS template interpolation of a possibly-missing port (port 0 and
    undefined are both falsy). -/
def portStr : Option Nat → String
  | none => ""
  | some p => if p = 0 then "" else Nat.repr p

/-- makeLineID (src/lib/Utils.js lines 11-19). -/
def makeLineID (t : DTrunk) : String :=
  (t.username.getD "") ++ ":" ++ (t.password.getD "") ++ ":" ++
  (t.auth_name.getD "") ++ ":" ++ (t.auth_domain.getD "") ++ "@" ++
  t.host ++ ":" ++ portStr t.port

/-- The full host address used for registrar and outbound
    (src/lib/Misc.js line 425). -/
def trunkAddr (t : DTrunk) : String :=
  t.host ++ (match t.port with
             | none => ""
             | some p => if p = 0 then "" else ":" ++ Nat.repr p)

/-- A user.login dispatch issued by the carrier registry. -/
inductive CarrierWire
  | login (account : String) (username password authname : Option String)
      (domain registrar : String)
  | logout (account : String)
deriving DecidableEq

/-- The active flag Yate is believed to have for a line id: the stored
    trunk entry when one exists, otherwise falsy. -/
def oldActive (old : List (String × STrunk)) (k : String) : Bool :=
  ((old.lookup k).map STrunk.active).getD false

/-- The merged trunk entry setCarriers stores: Object.assign of the old
    entry (contributing only its runtime active flag, since every passed
    field overrides it), the passed trunk, and the account key
    (src/lib/Misc.js lines 429-430). -/
def mergeTrunk (old : List (String × STrunk)) (t : DTrunk) : STrunk :=
  { fields := t, account := makeLineID t, active := oldActive old (makeLineID t) }

/-- The user.login dispatch for one carrier (src/lib/Misc.js lines
    435-446): authname defaults to the username, domain to the auth domain
    or host, registrar and outbound to the full address. -/
def loginOf (t : DTrunk) : CarrierWire :=
  .login (makeLineID t) t.username t.password
    (jsOrOpt t.auth_name t.username) (jsOr t.auth_domain t.host) (trunkAddr t)

/-- JS object insertion into the new carriers map: overwrite in place when
    the key exists, otherwise append. -/
def objInsert (m : List (String × STrunk)) (k : String) (v : STrunk) :
    List (String × STrunk) :=
  if m.any (fun kv => kv.1 == k) then
    m.map (fun kv => if kv.1 == k then (k, v) else kv)
  else m ++ [(k, v)]

/-- First phase of YateExt.prototype.setCarriers (src/lib/Misc.js lines
    408-448): walk the desired trunks in order, skip entries without a
    host, store the merged entry under its line id and, when the session is
    initialized and the entry is not known to be active, dispatch a
    user.login. -/
def setCarriersLoop (initComplete : Bool) (old : List (String × STrunk)) :
    List DTrunk → List (String × STrunk) →
    List (String × STrunk) × List CarrierWire
  | [], acc => (acc, [])
  | t :: ts, acc =>
    if t.host = "" then setCarriersLoop initComplete old ts acc
    else
      let merged := mergeTrunk old t
      let rest := setCarriersLoop initComplete old ts
        (objInsert acc merged.account merged)
      (rest.1,
       if initComplete && !merged.active then loginOf t :: rest.2
       else rest.2)

/-- YateExt.prototype.setCarriers (src/lib/Misc.js lines 395-466): build
    the new carriers map and login list, then log out of every old account
    absent from the new map (when initialized), and replace the map. -/
def setCarriers (initComplete : Bool) (old : List (String × STrunk))
    (desired : List DTrunk) : List (String × STrunk) × List CarrierWire :=
  let loopResult := setCarriersLoop initComplete old desired []
  let logouts :=
    if initComplete then
      (old.filter (fun kv => decide (loopResult.1.lookup kv.1 = none))).map
        (fun kv => CarrierWire.logout kv.1)
    else []
  (loopResult.1, loopResult.2 ++ logouts)

/-- The parameters encode_message actually writes: keys with defined,
    non-null values whose first byte is not the dollar sign, in order. -/
def encodedParams (ps : List (ByteStr × Option ByteStr)) :
    List (ByteStr × ByteStr) :=
  (ps.filterMap (fun kv => kv.2.map (fun v => (kv.1, v)))).filter
    (fun kv => decide (kv.1.head? ≠ some 36))

/-- The frame text of one key-value parameter. -/
def paramPart (kv : ByteStr × ByteStr) : ByteStr :=
  escape kv.1 ++ 61 :: escape kv.2

/-- Modelled from the claim wording of C1: the decoded message the claim
    predicts for the round trip, namely the message itself with keys whose
    values are undefined or null absent and the handlers key stripped.  A
    message with no processed flag is a request, so its decoded time is its
    own time. -/
def c1ClaimedRoundTrip (m : Msg) : DMsg :=
  { name := m.name
    typ := m.typ
    id := m.id
    retvalue := m.retvalue
    time := if m.processed = none then some m.time else none
    processed := m.processed
    params := (m.params.filterMap (fun kv => kv.2.map (fun v => (kv.1, v)))).filter
      (fun kv => decide (kv.1 ≠ strHandlers)) }

/-!
## Theorems

### Escape and unescape (claims C2, C3)
-/

theorem escapeByte_lt_256 (c : Nat) (hc : c < 256) : ∀ b ∈ escapeByte c, b < 256 := by
  intro b hb
  unfold escapeByte at hb
  split at hb
  · rename_i hcond
    simp at hb
    omega
  · split at hb
    · simp at hb
      omega
    · simp at hb
      omega

theorem unescapeLoop_cons_ne (b : Nat) (t : ByteStr) (hb : b ≠ 37) :
    unescapeLoop (b :: t) = b :: unescapeLoop t := by
  rw [unescapeLoop.eq_def]
  simp [hb]

/-- Round trip of one escaped byte against the unescape loop. -/
theorem unescapeLoop_escapeByte (b : Nat) (hb : b < 256) (t : ByteStr) :
    unescapeLoop (escapeByte b ++ t) = b :: unescapeLoop t := by
  unfold escapeByte
  split
  · rename_i h
    have h64 : b + 64 ≠ 37 := by omega
    rw [List.cons_append, List.cons_append, List.nil_append, unescapeLoop.eq_def]
    simp only [if_true, reduceIte, h64, ne_eq, not_false_eq_true, if_pos]
    rw [List.cons.injEq]
    refine ⟨?_, rfl⟩
    unfold fromCharCodeSub64
    omega
  · split
    · rename_i h37
      subst h37
      rw [List.cons_append, List.cons_append, List.nil_append, unescapeLoop.eq_def]
      simp
    · rename_i h h37
      rw [List.cons_append, List.nil_append, unescapeLoop_cons_ne b t h37]

theorem map_mod256_of_lt (l : List Nat) (h : ∀ b ∈ l, b < 256) :
    l.map (· % 256) = l := by
  induction l with
  | nil => rfl
  | cons b t ih =>
    simp only [List.map_cons]
    rw [Nat.mod_eq_of_lt (h b (by simp)), ih (fun x hx => h x (by simp [hx]))]

theorem escape_lt_256 (s : ByteStr) : ∀ b ∈ escape s, b < 256 := by
  intro b hb
  unfold escape at hb
  rw [List.mem_flatMap] at hb
  obtain ⟨c, hc, hbc⟩ := hb
  rw [List.mem_map] at hc
  obtain ⟨c0, hc0, rfl⟩ := hc
  exact escapeByte_lt_256 _ (Nat.mod_lt _ (by omega)) b hbc

theorem escape_cons (b : Nat) (t : ByteStr) (hb : b < 256) :
    escape (b :: t) = escapeByte b ++ escape t := by
  simp [escape, Nat.mod_eq_of_lt hb]

/-- unescape inverts escape on any sequence of bytes below 256.  This also
    carries the C2 claim restricted to ASCII. -/
theorem unescape_escape (s : ByteStr) (h : ∀ b ∈ s, b < 256) :
    unescape (escape s) = s := by
  unfold unescape
  rw [map_mod256_of_lt (escape s) (escape_lt_256 s)]
  induction s with
  | nil => rfl
  | cons b t ih =>
    have hb : b < 256 := h b (by simp)
    have ht : ∀ x ∈ t, x < 256 := fun x hx => h x (by simp [hx])
    rw [escape_cons b t hb, unescapeLoop_escapeByte b hb, ih ht]
/-- C2: for every ASCII byte string s, unescape (escape s) = s, where escape
    emits bytes below 0x20 and byte 0x3A as a percent pair with 0x40 added,
    doubles byte 0x25, and passes all other bytes through unchanged. -/
theorem c2_escape_roundtrip (s : ByteStr) (h : ∀ b ∈ s, b < 128) :
    unescape (escape s) = s :=
  unescape_escape s (fun b hb => lt_trans (h b hb) (by omega))

/-- Witness for C2 at the concrete ASCII string from the spec example,
    code units of "a:b%c" plus a newline. -/
theorem c2_escape_roundtrip_witness :
    unescape (escape [97, 58, 98, 37, 99, 10]) = [97, 58, 98, 37, 99, 10] :=
  c2_escape_roundtrip [97, 58, 98, 37, 99, 10] (by decide)

/-- C3 counterexample: a lone trailing percent is not preserved literally;
    the unescape loop reads past the buffer and emits the NUL character. -/
theorem c3_counterexample :
    unescape [37] = [0] ∧ unescape [37] ≠ [37] := by decide

/-- C3 amended: on an input whose only percent is a single trailing one,
    unescape keeps every other byte and turns the trailing percent into the
    NUL character (String.fromCharCode of undefined minus 64). -/
theorem c3_trailing_percent (s : ByteStr) (h : ∀ b ∈ s, b < 256)
    (hp : 37 ∉ s) : unescape (s ++ [37]) = s ++ [0] := by
  unfold unescape
  induction s with
  | nil => decide
  | cons b t ih =>
    have hb : b < 256 := h b (by simp)
    have hb37 : b ≠ 37 := by intro hb37; exact hp (by simp [hb37])
    have ht : ∀ x ∈ t, x < 256 := fun x hx => h x (by simp [hx])
    have htp : 37 ∉ t := fun hx => hp (by simp [hx])
    simp only [List.cons_append, List.map_cons, Nat.mod_eq_of_lt hb]
    rw [unescapeLoop_cons_ne b _ hb37, ih ht htp]

/-- Witness for C3 amended at the concrete input "ab" plus a trailing
    percent. -/
theorem c3_trailing_percent_witness :
    unescape [97, 98, 37] = [97, 98, 0] :=
  c3_trailing_percent [97, 98] (by decide) (by decide)

/-!
### Splitting and decimal lemmas for the message round trip (claim C1)
-/

theorem jsSplit_ne_nil (d : Nat) (s : ByteStr) : jsSplit d s ≠ [] := by
  cases s with
  | nil => simp [jsSplit]
  | cons c rest =>
    simp only [jsSplit]
    cases h : jsSplit d rest with
    | nil => simp [jsSplitCons]
    | cons a b => by_cases hc : c = d <;> simp [jsSplitCons, hc]

theorem jsSplit_no_delim (d : Nat) (s : ByteStr) (h : d ∉ s) :
    jsSplit d s = [s] := by
  induction s with
  | nil => rfl
  | cons c rest ih =>
    have hc : c ≠ d := fun hcd => h (by simp [hcd])
    have hrest : d ∉ rest := fun hx => h (by simp [hx])
    simp only [jsSplit, ih hrest, jsSplitCons]
    simp [hc]

theorem jsSplit_append (d : Nat) (a b : ByteStr) (ha : d ∉ a) :
    jsSplit d (a ++ d :: b) = a :: jsSplit d b := by
  induction a with
  | nil =>
    simp only [List.nil_append, jsSplit]
    cases h : jsSplit d b with
    | nil => exact absurd h (jsSplit_ne_nil d b)
    | cons x y => simp [jsSplitCons]
  | cons c a0 ih =>
    have hc : c ≠ d := fun hcd => ha (by simp [hcd])
    have ha0 : d ∉ a0 := fun hx => ha (by simp [hx])
    rw [List.cons_append]
    simp only [jsSplit, ih ha0, jsSplitCons]
    simp [hc]

/-- Splitting a head field followed by separator-prefixed parts recovers the
    parts. -/
theorem jsSplit_head_parts (d : Nat) (a : ByteStr) (parts : List ByteStr)
    (ha : d ∉ a) (hp : ∀ p ∈ parts, d ∉ p) :
    jsSplit d (a ++ parts.flatMap (fun p => d :: p)) = a :: parts := by
  induction parts generalizing a with
  | nil =>
    rw [List.flatMap_nil, List.append_nil, jsSplit_no_delim d a ha]
  | cons p ps ih =>
    have hpp : d ∉ p := hp p (by simp)
    have hps : ∀ x ∈ ps, d ∉ x := fun x hx => hp x (by simp [hx])
    rw [List.flatMap_cons, show a ++ ((d :: p) ++ ps.flatMap (fun p => d :: p)) =
          a ++ d :: (p ++ ps.flatMap (fun p => d :: p)) by simp,
        jsSplit_append d a _ ha, ih p hpp hps]

theorem natToDecAux_digits (fuel n : Nat) :
    ∀ b ∈ natToDecAux fuel n, 48 ≤ b ∧ b ≤ 57 := by
  induction fuel generalizing n with
  | zero => intro b hb; simp [natToDecAux] at hb
  | succ f ih =>
    intro b hb
    rw [natToDecAux.eq_def] at hb
    by_cases hn : n = 0
    · simp [hn] at hb
    · simp only [hn, if_false, List.mem_append, List.mem_singleton] at hb
      rcases hb with hb | hb
      · exact ih (n / 10) b hb
      · have : n % 10 < 10 := Nat.mod_lt _ (by omega)
        omega

theorem natToDec_digits (n : Nat) : ∀ b ∈ natToDec n, 48 ≤ b ∧ b ≤ 57 := by
  intro b hb
  unfold natToDec at hb
  by_cases hn : n = 0
  · simp [hn] at hb
    omega
  · simp only [hn, if_false] at hb
    exact natToDecAux_digits _ _ b hb

theorem natToDec_ne_nil (n : Nat) : natToDec n ≠ [] := by
  unfold natToDec
  by_cases hn : n = 0
  · simp [hn]
  · simp only [hn, if_false]
    rw [natToDecAux.eq_def]
    cases n with
    | zero => exact absurd rfl hn
    | succ k => simp

theorem digitVal_foldl (l : ByteStr) (d : Nat) (a : Nat) :
    (l ++ [d]).foldl (fun acc b => acc * 10 + (b - 48)) a =
      (l.foldl (fun acc b => acc * 10 + (b - 48)) a) * 10 + (d - 48) := by
  rw [List.foldl_append]
  rfl

theorem natToDecAux_val (fuel n : Nat) (h : n ≤ fuel) :
    (natToDecAux fuel n).foldl (fun acc b => acc * 10 + (b - 48)) 0 = n := by
  induction fuel generalizing n with
  | zero =>
    have : n = 0 := by omega
    simp [this, natToDecAux]
  | succ f ih =>
    rw [natToDecAux.eq_def]
    by_cases hn : n = 0
    · simp [hn]
    · simp only [hn, if_false]
      rw [digitVal_foldl, ih (n / 10) (by omega)]
      have h10 : n % 10 < 10 := Nat.mod_lt _ (by omega)
      omega

/-- parseNatDec inverts the decimal rendering of the time field. -/
theorem parseNatDec_natToDec (n : Nat) : parseNatDec (natToDec n) = some n := by
  unfold parseNatDec
  rw [if_neg (natToDec_ne_nil n)]
  have hd := natToDec_digits n
  have hall : (natToDec n).all (fun b => decide (48 ≤ b) && decide (b ≤ 57)) = true := by
    rw [List.all_eq_true]
    intro b hb
    have := hd b hb
    simp [this.1, this.2]
  rw [if_pos hall]
  unfold natToDec
  by_cases hn : n = 0
  · simp [hn]
  · simp only [hn, if_false]
    rw [natToDecAux_val (n + 1) n (by omega)]

theorem escapeByte_no_colon (c : Nat) : 58 ∉ escapeByte c := by
  intro hb
  unfold escapeByte at hb
  split at hb
  · rename_i hcond
    simp at hb
  · split at hb
    · simp at hb
    · rename_i h1 h2
      simp at hb
      omega

theorem escape_no_colon (s : ByteStr) : 58 ∉ escape s := by
  intro hb
  unfold escape at hb
  rw [List.mem_flatMap] at hb
  obtain ⟨c, _, hbc⟩ := hb
  exact escapeByte_no_colon c hbc

theorem escapeByte_no_eq (c : Nat) (hc : c ≠ 61) : 61 ∉ escapeByte c := by
  intro hb
  unfold escapeByte at hb
  split at hb
  · rename_i hcond
    simp at hb
  · split at hb
    · simp at hb
    · simp at hb
      exact hc hb.symm

theorem escape_no_eq (s : ByteStr) (h : ∀ b ∈ s, b < 256) (he : 61 ∉ s) :
    61 ∉ escape s := by
  intro hb
  unfold escape at hb
  rw [List.mem_flatMap] at hb
  obtain ⟨c, hc, hbc⟩ := hb
  rw [List.mem_map] at hc
  obtain ⟨c0, hc0, rfl⟩ := hc
  rw [Nat.mod_eq_of_lt (h c0 hc0)] at hbc
  have : c0 ≠ 61 := fun hx => he (hx ▸ hc0)
  exact escapeByte_no_eq c0 this hbc

theorem takeWhile_ne_append (d : Nat) (a b : ByteStr) (ha : d ∉ a) :
    (a ++ d :: b).takeWhile (· ≠ d) = a := by
  induction a with
  | nil =>
    rw [List.nil_append, List.takeWhile_cons_of_neg (by simp)]
  | cons c a0 ih =>
    have hc : c ≠ d := fun hcd => ha (by simp [hcd])
    have ha0 : d ∉ a0 := fun hx => ha (by simp [hx])
    rw [List.cons_append, List.takeWhile_cons_of_pos (by simpa using hc),
        ih ha0]

theorem dropWhile_ne_append (d : Nat) (a b : ByteStr) (ha : d ∉ a) :
    (a ++ d :: b).dropWhile (· ≠ d) = d :: b := by
  induction a with
  | nil =>
    rw [List.nil_append, List.dropWhile_cons_of_neg (by simp)]
  | cons c a0 ih =>
    have hc : c ≠ d := fun hcd => ha (by simp [hcd])
    have ha0 : d ∉ a0 := fun hx => ha (by simp [hx])
    rw [List.cons_append, List.dropWhile_cons_of_pos (by simpa using hc),
        ih ha0]

/-- Splitting one parameter part on the equals sign with limit 2. -/
theorem splitString_paramPart (kv : ByteStr × ByteStr)
    (hk : ∀ b ∈ kv.1, b < 256) (hke : 61 ∉ kv.1) :
    splitString (paramPart kv) 61 2 = [escape kv.1, escape kv.2] := by
  have hesc : 61 ∉ escape kv.1 := escape_no_eq kv.1 hk hke
  unfold paramPart
  rw [splitString.eq_def]
  have hmem : 61 ∈ escape kv.1 ++ 61 :: escape kv.2 := by simp
  simp only [if_pos hmem]
  rw [takeWhile_ne_append 61 _ _ hesc, dropWhile_ne_append 61 _ _ hesc]
  rfl

theorem encodedParams_cons_none (kv : ByteStr × Option ByteStr)
    (ps0 : List (ByteStr × Option ByteStr)) (hv : kv.2 = none) :
    encodedParams (kv :: ps0) = encodedParams ps0 := by
  unfold encodedParams
  rw [List.filterMap_cons_none]
  simp [hv]

theorem encodedParams_cons_dollar (kv : ByteStr × Option ByteStr)
    (ps0 : List (ByteStr × Option ByteStr)) (v : ByteStr)
    (hv : kv.2 = some v) (hd : kv.1.head? = some 36) :
    encodedParams (kv :: ps0) = encodedParams ps0 := by
  unfold encodedParams
  have hstep :
      List.filterMap (fun kv => Option.map (fun v => (kv.1, v)) kv.2) (kv :: ps0) =
        (kv.1, v) ::
          List.filterMap (fun kv => Option.map (fun v => (kv.1, v)) kv.2) ps0 :=
    List.filterMap_cons_some (by simp [hv])
  rw [hstep, List.filter_cons]
  simp [hd]

theorem encodedParams_cons_some (kv : ByteStr × Option ByteStr)
    (ps0 : List (ByteStr × Option ByteStr)) (v : ByteStr)
    (hv : kv.2 = some v) (hd : kv.1.head? ≠ some 36) :
    encodedParams (kv :: ps0) = (kv.1, v) :: encodedParams ps0 := by
  unfold encodedParams
  have hstep :
      List.filterMap (fun kv => Option.map (fun v => (kv.1, v)) kv.2) (kv :: ps0) =
        (kv.1, v) ::
          List.filterMap (fun kv => Option.map (fun v => (kv.1, v)) kv.2) ps0 :=
    List.filterMap_cons_some (by simp [hv])
  rw [hstep, List.filter_cons]
  simp [hd]

/-- The parameter block of encode_message is the flat list of the encoded
    parameters, each preceded by a colon. -/
theorem encode_param_blob (ps : List (ByteStr × Option ByteStr)) :
    ps.flatMap (fun kv =>
      match kv.2 with
      | none => []
      | some v =>
        if kv.1.head? = some 36 then []
        else 58 :: (escape kv.1 ++ 61 :: escape v)) =
    (encodedParams ps).flatMap (fun kv => 58 :: paramPart kv) := by
  induction ps with
  | nil => rfl
  | cons kv ps0 ih =>
    rw [List.flatMap_cons]
    cases hv : kv.2 with
    | none =>
      rw [encodedParams_cons_none kv ps0 hv]
      simpa using ih
    | some v =>
      by_cases hd : kv.1.head? = some 36
      · rw [encodedParams_cons_dollar kv ps0 v hv hd]
        simp only [hd, if_pos rfl]
        simpa using ih
      · rw [encodedParams_cons_some kv ps0 v hv hd, List.flatMap_cons]
        simp only [hd, if_neg hd]
        rw [ih]
        rfl

/-- Every encoded parameter comes from an entry of the original list whose
    value was defined. -/
theorem encodedParams_mem (ps : List (ByteStr × Option ByteStr))
    (kv : ByteStr × ByteStr) (h : kv ∈ encodedParams ps) :
    (kv.1, some kv.2) ∈ ps := by
  unfold encodedParams at h
  have h1 := List.mem_of_mem_filter h
  rw [List.mem_filterMap] at h1
  obtain ⟨⟨k0, v0⟩, hkv0, hmap⟩ := h1
  cases v0 with
  | none => simp at hmap
  | some v =>
    simp at hmap
    subst hmap
    simpa using hkv0

/-- When no key begins with the dollar sign, the encoded parameters are
    exactly the defined-valued entries. -/
theorem encodedParams_eq_filterMap (ps : List (ByteStr × Option ByteStr))
    (h : ∀ kv ∈ ps, kv.1.head? ≠ some 36) :
    encodedParams ps =
      ps.filterMap (fun kv => kv.2.map (fun v => (kv.1, v))) := by
  unfold encodedParams
  rw [List.filter_eq_self]
  intro kv hkv
  rw [List.mem_filterMap] at hkv
  obtain ⟨⟨k0, v0⟩, hkv0, hmap⟩ := hkv
  cases v0 with
  | none => simp at hmap
  | some v =>
    simp at hmap
    subst hmap
    simpa using h (k0, some v) hkv0

theorem flatMap_map_colon (ps : List (ByteStr × ByteStr)) :
    (ps.map paramPart).flatMap (fun p => 58 :: p) =
      ps.flatMap (fun kv => 58 :: paramPart kv) := by
  induction ps with
  | nil => rfl
  | cons kv ps0 ih => simp [ih]

/-- C1 amended: the encode/decode round trip restores the message with
    undefined/null-valued keys absent and the handlers key stripped,
    provided the message is frame-safe: the id is present and, like the
    name, free of colon bytes; the direction attributes are consistent (a
    request tag with no processed flag and a nonzero time, or a reply tag
    with a processed flag); retvalue and parameter bytes fit in a byte;
    parameter keys contain no equals sign, do not begin with a dollar sign,
    are not pure digit strings (the JS for-in loop would enumerate those
    first) and are distinct (JS object keys are unique). -/
theorem c1_roundtrip_amended (now : Nat) (gid : ByteStr) (m : Msg)
    (hid : m.id ≠ []) (hidc : 58 ∉ m.id) (hname : 58 ∉ m.name)
    (hdir : (m.typ = reqTag ∧ m.processed = none ∧ m.time ≠ 0) ∨
            (m.typ = repTag ∧ ∃ b, m.processed = some b))
    (hrv : ∀ b ∈ m.retvalue, b < 256)
    (hkeys : ∀ kv ∈ m.params, (∀ b ∈ kv.1, b < 256) ∧ 61 ∉ kv.1 ∧
        kv.1.head? ≠ some 36)
    (hkeysnum : ∀ kv ∈ m.params, ¬(kv.1 ≠ [] ∧ ∀ b ∈ kv.1, 48 ≤ b ∧ b ≤ 57))
    (hvals : ∀ kv ∈ m.params, ∀ v, kv.2 = some v → ∀ b ∈ v, b < 256)
    (hnodup : (m.params.map Prod.fst).Nodup) :
    decode_message (jsSplit 58 (encode_message now gid m)) =
      some (c1ClaimedRoundTrip m) := by
  have htyp_ne : m.typ ≠ [] := by
    rcases hdir with ⟨h1, _, _⟩ | ⟨h1, _⟩ <;> (rw [h1]; decide)
  have htyp_nc : (58 : Nat) ∉ m.typ := by
    rcases hdir with ⟨h1, _, _⟩ | ⟨h1, _⟩ <;> (rw [h1]; decide)
  have hf2c : (58 : Nat) ∉ (match m.processed with
      | some b => if b then strTrue else strFalse
      | none => natToDec (if m.time = 0 then now else m.time)) := by
    cases m.processed with
    | some b =>
      cases b
      · show (58 : Nat) ∉ strFalse
        decide
      · show (58 : Nat) ∉ strTrue
        decide
    | none =>
      show (58 : Nat) ∉ natToDec (if m.time = 0 then now else m.time)
      intro hb
      have := natToDec_digits _ _ hb
      omega
  have hline : encode_message now gid m =
      m.typ ++ ([m.id,
        (match m.processed with
         | some b => if b then strTrue else strFalse
         | none => natToDec (if m.time = 0 then now else m.time)),
        m.name, escape m.retvalue] ++
        (encodedParams m.params).map paramPart).flatMap (fun p => 58 :: p) := by
    unfold encode_message
    rw [if_neg htyp_ne, if_neg hid, encode_param_blob, ← flatMap_map_colon]
    simp [List.flatMap_cons, List.append_assoc]
  have hall : ∀ p ∈ ([m.id,
      (match m.processed with
       | some b => if b then strTrue else strFalse
       | none => natToDec (if m.time = 0 then now else m.time)),
      m.name, escape m.retvalue] ++
      (encodedParams m.params).map paramPart), (58 : Nat) ∉ p := by
    intro p hp
    rw [List.mem_append] at hp
    rcases hp with hp | hp
    · simp only [List.mem_cons, List.not_mem_nil, or_false] at hp
      rcases hp with hp | hp | hp | hp
      · exact hp ▸ hidc
      · exact hp ▸ hf2c
      · exact hp ▸ hname
      · exact hp ▸ escape_no_colon m.retvalue
    · rw [List.mem_map] at hp
      obtain ⟨kv, hkv, rfl⟩ := hp
      intro hb
      unfold paramPart at hb
      rw [List.mem_append, List.mem_cons] at hb
      rcases hb with hb | hb | hb
      · exact escape_no_colon kv.1 hb
      · omega
      · exact escape_no_colon kv.2 hb
  have hparts : jsSplit 58 (encode_message now gid m) =
      m.typ :: m.id ::
        (match m.processed with
         | some b => if b then strTrue else strFalse
         | none => natToDec (if m.time = 0 then now else m.time)) ::
        m.name :: escape m.retvalue ::
        (encodedParams m.params).map paramPart := by
    rw [hline, jsSplit_head_parts 58 m.typ _ htyp_nc hall]
    simp
  rw [hparts]
  unfold decode_message
  rw [if_neg (by simp)]
  have hany : ((m.typ :: m.id ::
      (match m.processed with
       | some b => if b then strTrue else strFalse
       | none => natToDec (if m.time = 0 then now else m.time)) ::
      m.name :: escape m.retvalue ::
      (encodedParams m.params).map paramPart).drop 5).any
      (fun part => decide (61 ∉ part)) = false := by
    simp only [List.drop_succ_cons, List.drop_zero]
    rw [List.any_eq_false]
    intro part hp
    obtain ⟨kv, hkv, hpp⟩ := List.mem_map.mp hp
    subst hpp
    intro hcontra
    rw [decide_eq_true_eq] at hcontra
    refine hcontra ?_
    unfold paramPart
    simp
  rw [if_neg (fun hcontra => by rw [hany] at hcontra; simp at hcontra)]
  unfold c1ClaimedRoundTrip
  rw [Option.some_inj]
  have hmapdec : ((encodedParams m.params).map paramPart).map (fun part =>
      let p := splitString part 61 2
      (unescape (p.getD 0 []), unescape (p.getD 1 []))) =
      encodedParams m.params := by
    rw [List.map_map]
    conv_rhs => rw [← List.map_id (encodedParams m.params)]
    apply List.map_congr_left
    intro kv hkv
    have hm := encodedParams_mem _ kv hkv
    have hk := hkeys _ hm
    have hv := hvals _ hm kv.2 rfl
    simp only [Function.comp_apply]
    rw [splitString_paramPart kv hk.1 hk.2.1]
    simp [unescape_escape kv.1 hk.1, unescape_escape kv.2 hv]
  simp only [DMsg.mk.injEq]
  refine ⟨by simp, by simp, by simp, ?_, ?_, ?_, ?_⟩
  · simp only [List.getD_cons_succ, List.getD_cons_zero]
    exact unescape_escape m.retvalue hrv
  · rcases hdir with ⟨h1, h2, h3⟩ | ⟨h1, h2⟩
    · simp only [List.getD_cons_succ, List.getD_cons_zero]
      rw [h1, h2, if_pos rfl, if_pos rfl]
      show parseNatDec (natToDec (if m.time = 0 then now else m.time)) =
        some m.time
      rw [if_neg h3]
      exact parseNatDec_natToDec m.time
    · obtain ⟨b, hb⟩ := h2
      have hne : m.typ ≠ reqTag := by rw [h1]; decide
      simp only [List.getD_cons_succ, List.getD_cons_zero]
      rw [if_neg hne, if_neg (by simp [hb])]
  · rcases hdir with ⟨h1, h2, h3⟩ | ⟨h1, h2⟩
    · simp only [List.getD_cons_succ, List.getD_cons_zero]
      rw [if_pos h1, h2]
    · obtain ⟨b, hb⟩ := h2
      have hne : m.typ ≠ reqTag := by rw [h1]; decide
      simp only [List.getD_cons_succ, List.getD_cons_zero]
      rw [if_neg hne, hb]
      cases b
      · show some (decide (strFalse = strTrue)) = some false
        decide
      · show some (decide (strTrue = strTrue)) = some true
        decide
  · simp only [List.drop_succ_cons, List.drop_zero]
    rw [hmapdec,
        encodedParams_eq_filterMap m.params (fun kv hkv => (hkeys kv hkv).2.2)]

/-- C1 counterexample: a parameter key containing an equals sign is cut at
    its first equals sign by the limit-2 split on decode, so the round trip
    does not restore the message even after dropping undefined keys and
    handlers. -/
theorem c1_counterexample :
    decode_message (jsSplit 58 (encode_message 7 (bytes "gid")
      { name := bytes "call.route", typ := reqTag, id := bytes "id1",
        retvalue := bytes "fork", time := 5, processed := none,
        params := [(bytes "a=b", some (bytes "c"))] })) ≠
      some (c1ClaimedRoundTrip
        { name := bytes "call.route", typ := reqTag, id := bytes "id1",
          retvalue := bytes "fork", time := 5, processed := none,
          params := [(bytes "a=b", some (bytes "c"))] }) := by
  decide

/-- Witness for the amended C1 at a concrete request message carrying a
    normal key, a handlers key and an undefined-valued key. -/
theorem c1_roundtrip_witness :
    decode_message (jsSplit 58 (encode_message 7 (bytes "gid")
      { name := bytes "call.route", typ := reqTag, id := bytes "id1",
        retvalue := bytes "fork", time := 5, processed := none,
        params := [(bytes "caller", some (bytes "200")),
                   (bytes "handlers", some (bytes "x")),
                   (bytes "extra", none)] })) =
      some (c1ClaimedRoundTrip
        { name := bytes "call.route", typ := reqTag, id := bytes "id1",
          retvalue := bytes "fork", time := 5, processed := none,
          params := [(bytes "caller", some (bytes "200")),
                     (bytes "handlers", some (bytes "x")),
                     (bytes "extra", none)] }) :=
  c1_roundtrip_amended 7 (bytes "gid") _ (by decide) (by decide) (by decide)
    (Or.inl ⟨rfl, rfl, by decide⟩) (by decide) (by decide) (by decide)
    (by decide) (by decide)

/-!
### Fork planner (claim C4)
-/

/-- C4: the fork planner drops every route after the second.  The group
    separator advances the loop variable itself, so the for-loop bound is
    reached after the second target: with three routes the output contains
    the two groups for gw1 and gw2 and nothing at all for gw3, contradicting
    the claim that every route contributes one callto target. -/
theorem c4_third_route_dropped :
    fork [ { fullroute := none, protocol := none, host := "gw1:8888",
             caller := some "555", called := none,
             formats := some "g729,g723", line := none,
             forward_timeout := none },
           { fullroute := none, protocol := none, host := "gw2:8888",
             caller := some "666", called := some "00031999",
             formats := none, line := none, forward_timeout := none },
           { fullroute := none, protocol := none, host := "gw3:8888",
             caller := some "777", called := none, formats := none,
             line := none, forward_timeout := none } ] "200" "31999" =
      [("$retvalue", "fork"), ("fork.stop", "busy"),
       ("callto.1", "sip/sip:31999@gw1:8888"),
       ("callto.1.caller", "555"), ("callto.1.callername", "555"),
       ("callto.1.domain", "gw1:8888"), ("callto.1.called", "31999"),
       ("callto.1.formats", "g729,g723"),
       ("callto.2", "|"),
       ("callto.3", "sip/sip:00031999@gw2:8888"),
       ("callto.3.caller", "666"), ("callto.3.callername", "666"),
       ("callto.3.domain", "gw2:8888"), ("callto.3.called", "00031999")] := by
  decide

/-!
### Channel cause reconciliation and terminated behaviour (C5, C7, C10)
-/

/-- C5: for a channel with a saved cause, getDisconnectCause applies the
    reconciliation rules in order: a positive duration forces 200 Normal
    call clearing; otherwise a saved 487 defers to the saved cause of an
    existing peer; otherwise the saved cause stands.  In particular a
    positive duration always yields code 200. -/
theorem c5_cause_reconciliation (st : ChanStore) (c : Chan) (k : Cause)
    (h : c.saved_cause = some k) :
    getDisconnectCause st c =
      some (if 0 < getDuration c then ⟨200, "Normal call clearing"⟩
            else if k.code = 487 then (peerSavedCause st c).getD k else k) ∧
    (0 < getDuration c →
      getDisconnectCause st c = some ⟨200, "Normal call clearing"⟩) := by
  unfold getDisconnectCause
  simp only [h]
  constructor
  · by_cases hd : 0 < getDuration c
    · rw [if_pos hd, if_pos hd]
    · rw [if_neg hd, if_neg hd]
      by_cases hk : k.code = 487
      · rw [if_pos hk, if_pos hk]
        cases hp : peerSavedCause st c <;> simp
      · rw [if_neg hk, if_neg hk]
  · intro hd
    rw [if_pos hd]

/-- Witness for C5 at the spec scenario: connect at 1000, disconnect at
    6000, saved cause 486 Busy Here; the reported cause is 200. -/
theorem c5_cause_reconciliation_witness :
    getDisconnectCause (fun _ => none)
      { chan := "sip/1", routed := true, terminated := true,
        hasCallRoute := true, connectTime := some 1000,
        disconnectTime := some 6000,
        saved_cause := some ⟨486, "Busy Here"⟩, peer := none,
        timerArmed := false } = some ⟨200, "Normal call clearing"⟩ :=
  (c5_cause_reconciliation (fun _ => none) _ ⟨486, "Busy Here"⟩ rfl).2
    (by decide)

/-- C10: before any cause has been saved, getDisconnectCause returns null
    rather than the default 487 Request Terminated cause. -/
theorem c10_cause_null_before_terminate (st : ChanStore) (c : Chan)
    (h : c.saved_cause = none) :
    getDisconnectCause st c = none ∧
    getDisconnectCause st c ≠ some ⟨487, "Request Terminated"⟩ := by
  constructor
  · unfold getDisconnectCause
    rw [h]
  · unfold getDisconnectCause
    rw [h]
    exact fun hx => Option.noConfusion hx

/-- Witness for C10 at a live routing-mode channel. -/
theorem c10_cause_null_witness :
    getDisconnectCause (fun _ => none)
      { chan := "sip/2", routed := false, terminated := false,
        hasCallRoute := true, connectTime := none, disconnectTime := none,
        saved_cause := none, peer := none, timerArmed := false } = none :=
  (c10_cause_null_before_terminate (fun _ => none) _ rfl).1

/-- C7: once a channel is terminated, none of terminate, setTimeout,
    routeToDestination, routeToIVR, connectToChannel or recordAudio reach
    the wire (and the state is unchanged), subscribing to any event other
    than end is an error, and subscribing to end invokes the handler
    immediately with the saved disconnect cause. -/
theorem c7_terminated_is_silent (st : ChanStore) (cfg : PbxCfg)
    (rtpPossible : Bool) (now : Int) (c p : Chan) (ic ip : Nat)
    (dest : Dest) (routeCalled : String) (fileA fileB : Option String)
    (maxlen : Option Nat) (cause? : Option Cause) (ev : String)
    (h : c.terminated = true) :
    terminate cfg rtpPossible now c cause? = (c, []) ∧
    setTimeoutOp c = (c, []) ∧
    routeToDestination cfg rtpPossible c dest routeCalled = (c, []) ∧
    routeToIVR cfg rtpPossible c = (c, []) ∧
    connectToChannel c p ic ip = (c, p, []) ∧
    recordAudio c fileA fileB maxlen = [] ∧
    (ev ≠ "end" → onsafe st c ev = .errorTerminated) ∧
    onsafe st c "end" = .immediateEnd (getDisconnectCause st c) := by
  refine ⟨?_, ?_, ?_, ?_, ?_, ?_, ?_, ?_⟩
  · simp [terminate, h]
  · simp [setTimeoutOp, h]
  · simp [routeToDestination, h]
  · simp [routeToIVR, h]
  · simp [connectToChannel, h]
  · simp [recordAudio, h]
  · intro hev
    simp [onsafe, h, hev]
  · simp [onsafe, h]

/-- Witness for C7 at a concrete terminated channel. -/
theorem c7_terminated_is_silent_witness :
    terminate (⟨7200000, 70000, true⟩ : PbxCfg) false 99
        (⟨"sip/3", false, true, true, none, some 50,
          some ⟨487, "Request Terminated"⟩, none, false⟩ : Chan) none =
      ((⟨"sip/3", false, true, true, none, some 50,
         some ⟨487, "Request Terminated"⟩, none, false⟩ : Chan), []) ∧
    onsafe (fun _ => none)
        (⟨"sip/3", false, true, true, none, some 50,
          some ⟨487, "Request Terminated"⟩, none, false⟩ : Chan) "dtmf" =
      .errorTerminated :=
  ⟨(c7_terminated_is_silent (fun _ => none) ⟨7200000, 70000, true⟩ false 99 _
      (⟨"x", false, false, false, none, none, none, none, false⟩ : Chan) 0 0
      ⟨none, none, [], none, none⟩ "" none none none none "dtmf" rfl).1,
   (c7_terminated_is_silent (fun _ => none) ⟨7200000, 70000, true⟩ false 99 _
      (⟨"x", false, false, false, none, none, none, none, false⟩ : Chan) 0 0
      ⟨none, none, [], none, none⟩ "" none none none none "dtmf"
      rfl).2.2.2.2.2.2.1 (by decide)⟩

/-!
### Handshake readiness gate (claim C6)
-/

/-- Once the countdown is at or below zero, further confirmations never
    emit connected again and leave the readiness flag alone. -/
theorem hsRun_confirm_stuck (n : Nat) :
    ∀ s : Handshake, s.total ≤ 0 →
      (hsRun s (List.replicate n .confirm)).2 = 0 ∧
      (hsRun s (List.replicate n .confirm)).1.initComplete =
        s.initComplete := by
  induction n with
  | zero => exact fun s _ => ⟨rfl, rfl⟩
  | succ k ih =>
    intro s hs
    rw [List.replicate_succ]
    simp only [hsRun]
    by_cases hl : s.listening
    · by_cases hc : s.currentSocket
      · have hne : ¬(s.total - 1 = 0) := by omega
        simp only [hsStep, hl, hc, Bool.not_true, Bool.false_eq_true,
          if_false, if_neg hne]
        have := ih { s with total := s.total - 1 } (by simp; omega)
        simpa [hl, hc] using this
      · simp only [hsStep, hl, hc, Bool.not_true, Bool.not_false,
          Bool.false_eq_true, if_false, if_true]
        have := ih { s with listening := false } (by simpa using hs)
        simpa [hl, hc] using this
    · simp only [hsStep, hl, Bool.not_false, if_true]
      have := ih s hs
      simpa using this

/-- The countdown emits connected exactly on the confirmation that brings
    the counter to zero, and sets the readiness flag there. -/
theorem hsRun_confirm_count (n : Nat) :
    ∀ s : Handshake, s.listening = true → s.currentSocket = true →
      s.initComplete = false → 0 < s.total →
      (hsRun s (List.replicate n .confirm)).2 =
        (if s.total ≤ (n : Int) then 1 else 0) ∧
      (hsRun s (List.replicate n .confirm)).1.initComplete =
        decide (s.total ≤ (n : Int)) := by
  induction n with
  | zero =>
    intro s h1 h2 h3 h4
    refine ⟨?_, ?_⟩
    · show (0 : Nat) = _
      rw [if_neg (by push_cast; omega)]
    · show s.initComplete = _
      rw [h3]
      exact (decide_eq_false (by push_cast; omega)).symm
  | succ k ih =>
    intro s h1 h2 h3 h4
    rw [List.replicate_succ]
    simp only [hsRun]
    by_cases ht : s.total - 1 = 0
    · simp only [hsStep, h1, h2, h3, Bool.not_true, Bool.false_eq_true,
        if_false, if_pos ht, if_true]
      have hstuck := hsRun_confirm_stuck k
        (⟨s.total - 1, true, true, true⟩ : Handshake) (by simp; omega)
      refine ⟨?_, ?_⟩
      · rw [hstuck.1, if_pos (by push_cast; omega)]
      · rw [hstuck.2]
        exact (decide_eq_true (by push_cast; omega)).symm
    · simp only [hsStep, h1, h2, h3, Bool.not_true, Bool.false_eq_true,
        if_false, if_neg ht]
      have hih := ih (⟨s.total - 1, true, true, false⟩ : Handshake)
        rfl rfl rfl (by simp; omega)
      refine ⟨?_, ?_⟩
      · rw [hih.1]
        show (0 : Nat) + _ = _
        rw [Nat.zero_add]
        have hproj :
            (⟨s.total - 1, true, true, false⟩ : Handshake).total =
              s.total - 1 := rfl
        rw [hproj]
        by_cases hle : s.total - 1 ≤ (k : Int)
        · rw [if_pos hle, if_pos (by push_cast at hle ⊢; omega)]
        · rw [if_neg hle, if_neg (by push_cast at hle ⊢; omega)]
      · rw [hih.2]
        exact decide_eq_decide.mpr (by push_cast; omega)

/-- C6: connected is emitted, and the readiness flag set, exactly when the
    number of install-confirm plus watch-confirm events observed for the
    current socket reaches the configured install-plus-watch set size
    (3 installs and 8 watches); and a confirmation seen by a listener whose
    socket has been replaced never emits connected nor changes readiness. -/
theorem c6_handshake_gate :
    (∀ n : Nat,
      (hsRun hsInit (List.replicate n .confirm)).2 =
        (if install_list.length + watch_list.length ≤ n then 1 else 0) ∧
      (hsRun hsInit (List.replicate n .confirm)).1.initComplete =
        decide (install_list.length + watch_list.length ≤ n)) ∧
    (∀ s : Handshake, s.currentSocket = false →
      (hsStep s .confirm).2 = false ∧
      (hsStep s .confirm).1.initComplete = s.initComplete) := by
  constructor
  · intro n
    have h := hsRun_confirm_count n hsInit rfl rfl rfl (by decide)
    have hcast : (hsInit.total ≤ (n : Int)) ↔
        (install_list.length + watch_list.length ≤ n) := by
      show (((install_list.length + watch_list.length : Nat) : Int) ≤
        (n : Int)) ↔ _
      exact_mod_cast Iff.rfl
    refine ⟨?_, ?_⟩
    · rw [h.1]
      by_cases hle : install_list.length + watch_list.length ≤ n
      · rw [if_pos (hcast.mpr hle), if_pos hle]
      · rw [if_neg (fun hx => hle (hcast.mp hx)), if_neg hle]
    · rw [h.2]
      exact decide_eq_decide.mpr hcast
  · intro s hcur
    unfold hsStep
    by_cases hl : s.listening
    · simp [hl, hcur]
    · simp [hl, hcur]

/-- Witness for C6: with the 3 installs and 8 watches, eleven confirmations
    on the current socket emit connected once, ten do not, and a
    confirmation on a replaced socket emits nothing. -/
theorem c6_handshake_gate_witness :
    (hsRun hsInit (List.replicate 11 .confirm)).2 = 1 ∧
    (hsRun hsInit (List.replicate 10 .confirm)).2 = 0 ∧
    (hsStep ⟨5, true, false, false⟩ .confirm).2 = false := by
  refine ⟨?_, ?_, ?_⟩
  · have h := (c6_handshake_gate.1 11).1
    simpa using h
  · have h := (c6_handshake_gate.1 10).1
    simpa using h
  · exact (c6_handshake_gate.2 ⟨5, true, false, false⟩ rfl).1

/-!
### IVR attach trace (claim C9)
-/

theorem playNext_fst (q : List Sound) :
    (playNext q).1 = q.dropWhile (fun s => !playable s) := by
  induction q with
  | nil => rfl
  | cons s rest ih =>
    cases s with
    | nonObject =>
      simpa [playNext, playable, List.dropWhile_cons] using ih
    | unrecognized =>
      simpa [playNext, playable, List.dropWhile_cons] using ih
    | path p =>
      simp [playNext, playable, List.dropWhile_cons]
    | tone n ms =>
      cases ms with
      | none =>
        simpa [playNext, playable, List.dropWhile_cons] using ih
      | some m =>
        by_cases hm : 0 < m
        · simp [playNext, playable, List.dropWhile_cons, hm]
        · simpa [playNext, playable, List.dropWhile_cons, hm] using ih

theorem playNext_wire (q : List Sound) :
    (playNext q).2.1 =
      (q.takeWhile (fun s => !playable s)).flatMap soundAttaches ++
        ((q.dropWhile (fun s => !playable s)).head?.elim [] soundAttaches) := by
  induction q with
  | nil => rfl
  | cons s rest ih =>
    cases s with
    | nonObject =>
      simpa [playNext, playable, soundAttaches, List.dropWhile_cons,
        List.takeWhile_cons] using ih
    | unrecognized =>
      simpa [playNext, playable, soundAttaches, List.dropWhile_cons,
        List.takeWhile_cons] using ih
    | path p =>
      simp [playNext, playable, soundAttaches, List.dropWhile_cons,
        List.takeWhile_cons]
    | tone n ms =>
      cases ms with
      | none =>
        simpa [playNext, playable, soundAttaches, List.dropWhile_cons,
          List.takeWhile_cons] using ih
      | some m =>
        by_cases hm : 0 < m
        · simp [playNext, playable, soundAttaches, List.dropWhile_cons,
            List.takeWhile_cons, hm]
        · simpa [playNext, playable, soundAttaches, List.dropWhile_cons,
            List.takeWhile_cons, hm] using ih

theorem dropWhile_head_false {α : Type} (p : α → Bool) (l : List α) (x : α)
    (xs : List α) (h : l.dropWhile p = x :: xs) : p x = false := by
  induction l with
  | nil => simp [List.dropWhile] at h
  | cons a l0 ih =>
    rw [List.dropWhile_cons] at h
    cases hpa : p a
    · rw [hpa] at h
      simp only [Bool.false_eq_true, if_false, List.cons.injEq] at h
      rw [← h.1]
      exact hpa
    · rw [hpa] at h
      simp only [if_true] at h
      exact ih h

/-- The attaches of a fully drained queue, given enough fuel: one attach per
    path or tone item in order, then comfort silence exactly when the last
    queue element is actually playable. -/
theorem drainFuel_spec : ∀ (fuel : Nat) (q : List Sound), q.length ≤ fuel →
    drainFuel fuel q = q.flatMap soundAttaches ++
      (if (q.getLast?.map playable).getD false then [silenceAttach]
       else []) := by
  intro fuel
  induction fuel with
  | zero =>
    intro q hq
    have hq0 : q = [] := List.length_eq_zero.mp (by omega)
    subst hq0
    simp [drainFuel]
  | succ f ih =>
    intro q hq
    simp only [drainFuel]
    by_cases hD : (playNext q).1 = []
    · rw [if_pos hD]
      rw [playNext_fst] at hD
      have hall := List.dropWhile_eq_nil_iff.mp hD
      have htake : q.takeWhile (fun s => !playable s) = q := by
        conv_rhs => rw [← List.takeWhile_append_dropWhile
          (fun s => !playable s) q]
        rw [hD, List.append_nil]
      rw [playNext_wire, hD, htake]
      simp only [List.head?_nil, Option.elim, List.append_nil]
      cases hlast : q.getLast? with
      | none => simp
      | some z =>
        have hz : z ∈ q := List.mem_of_mem_getLast? hlast
        have := hall z hz
        simp only [Bool.not_eq_eq_eq_not, Bool.not_true] at this
        simp [this]
    · rw [if_neg hD]
      obtain ⟨s, rest, hDc⟩ := List.exists_cons_of_ne_nil hD
      have hDq : q.dropWhile (fun s => !playable s) = s :: rest := by
        rw [← playNext_fst]; exact hDc
      have hps : playable s = true := by
        have := dropWhile_head_false (fun s => !playable s) q s rest hDq
        simpa using this
      have hsplit : q = q.takeWhile (fun s => !playable s) ++ s :: rest := by
        conv_lhs => rw [← List.takeWhile_append_dropWhile
          (fun s => !playable s) q]
        rw [hDq]
      have hwire : (playNext q).2.1 =
          (q.takeWhile (fun s => !playable s)).flatMap soundAttaches ++
            soundAttaches s := by
        rw [playNext_wire, hDq]
        rfl
      rw [hDc]
      simp only [List.tail_cons]
      by_cases hrest : rest.isEmpty
      · have hrest0 : rest = [] := List.isEmpty_iff.mp hrest
        subst hrest0
        rw [if_pos hrest, hwire]
        conv_rhs => rw [hsplit]
        rw [List.flatMap_append, List.getLast?_concat]
        simp [hps, List.append_assoc]
      · have hrne : rest ≠ [] := fun hx => hrest (by simp [hx])
        rw [if_neg hrest]
        have hlen : rest.length ≤ f := by
          have := congrArg List.length hsplit
          simp only [List.length_append, List.length_cons] at this
          omega
        rw [ih rest hlen, hwire]
        conv_rhs => rw [hsplit]
        rw [List.flatMap_append, List.flatMap_cons]
        have hlast : (q.takeWhile (fun s => !playable s) ++
            s :: rest).getLast? = rest.getLast? := by
          rw [show q.takeWhile (fun s => !playable s) ++ s :: rest =
                (q.takeWhile (fun s => !playable s) ++ [s]) ++ rest by
              simp [List.append_assoc]]
          exact List.getLast?_append_of_ne_nil _ hrne
        rw [hlast]
        simp [List.append_assoc]

/-- C9 amended: draining a queue of enqueued sounds produces one chan.attach
    per path or tone item, in enqueue order.  Tones with an invalid ms still
    dispatch their attach before being skipped (the source attaches the tone
    generator before validating), non-objects and unrecognized objects
    dispatch nothing, and a comfort silence attach follows exactly when the
    last enqueued item is playable. -/
theorem c9_attach_trace (sounds : List Sound) :
    drain (sounds.foldl enqueue []) =
      sounds.flatMap soundAttaches ++
        (if ((sounds.getLast?.map playable).getD false) then [silenceAttach]
         else []) := by
  have hfold : ∀ (acc : List Sound), sounds.foldl enqueue acc = acc ++ sounds := by
    induction sounds with
    | nil => intro acc; simp
    | cons x xs ih => intro acc; simp [enqueue, ih]
  rw [show sounds.foldl enqueue [] = sounds by simpa using hfold []]
  exact drainFuel_spec sounds.length sounds le_rfl

/-- C9 counterexample: a tone with an invalid (zero) duration is removed
    from the queue, but its tonegen attach still reaches the engine,
    contradicting the claim that invalid items produce no attach of their
    own. -/
theorem c9_counterexample :
    drain [Sound.tone "busy" (some 0)] ≠
      c9ClaimedTrace [Sound.tone "busy" (some 0)] := by
  decide

/-!
### Carrier trunk registry (claim C8)
-/

theorem objInsert_fresh (m : List (String × STrunk)) (k : String)
    (v : STrunk) (h : k ∉ m.map Prod.fst) : objInsert m k v = m ++ [(k, v)] := by
  unfold objInsert
  rw [if_neg]
  intro hc
  rw [List.any_eq_true] at hc
  obtain ⟨kv, hkv, hbeq⟩ := hc
  have hk : kv.1 = k := by simpa using hbeq
  exact h (hk ▸ List.mem_map_of_mem Prod.fst hkv)

theorem lookup_eq_none_iff (m : List (String × STrunk)) (k : String) :
    m.lookup k = none ↔ k ∉ m.map Prod.fst := by
  induction m with
  | nil => simp [List.lookup]
  | cons kv m0 ih =>
    obtain ⟨a, b⟩ := kv
    by_cases hk : k = a
    · subst hk
      simp [List.lookup]
    · have hbeq : (k == a) = false := by simp [hk]
      simp only [List.lookup, hbeq, List.map_cons, List.mem_cons]
      rw [ih]
      simp [hk]

/-- The registration walk of setCarriers over valid trunks with distinct
    line ids: the accumulator gains one merged entry per trunk in order, and
    a user.login is dispatched exactly for the trunks not known to be
    active. -/
theorem setCarriersLoop_spec (old : List (String × STrunk)) :
    ∀ (ds : List DTrunk) (acc : List (String × STrunk)),
      (∀ t ∈ ds, t.host ≠ "") →
      (ds.map makeLineID).Nodup →
      (∀ t ∈ ds, makeLineID t ∉ acc.map Prod.fst) →
      setCarriersLoop true old ds acc =
        (acc ++ ds.map (fun t => (makeLineID t, mergeTrunk old t)),
         (ds.filter (fun t => !(mergeTrunk old t).active)).map loginOf) := by
  intro ds
  induction ds with
  | nil =>
    intro acc _ _ _
    simp [setCarriersLoop]
  | cons t ts ih =>
    intro acc hvalid hnodup hfresh
    have hh : ¬(t.host = "") := hvalid t (by simp)
    rw [List.map_cons, List.nodup_cons] at hnodup
    have hacct : (mergeTrunk old t).account = makeLineID t := rfl
    have hobj : objInsert acc (mergeTrunk old t).account (mergeTrunk old t) =
        acc ++ [(makeLineID t, mergeTrunk old t)] := by
      rw [hacct]
      exact objInsert_fresh acc _ _ (hfresh t (by simp))
    have hfresh1 : ∀ x ∈ ts, makeLineID x ∉
        (objInsert acc (mergeTrunk old t).account
          (mergeTrunk old t)).map Prod.fst := by
      intro x hx
      rw [hobj, List.map_append, List.mem_append]
      rintro (hc | hc)
      · exact hfresh x (by simp [hx]) hc
      · simp only [List.map_cons, List.map_nil, List.mem_singleton] at hc
        exact hnodup.1 (hc ▸ List.mem_map_of_mem makeLineID hx)
    have hrec := ih (objInsert acc (mergeTrunk old t).account
        (mergeTrunk old t))
      (fun x hx => hvalid x (by simp [hx])) hnodup.2 hfresh1
    simp only [setCarriersLoop, if_neg hh]
    rw [hrec, hobj]
    by_cases hact : (mergeTrunk old t).active
    · simp [hact, List.filter_cons, List.append_assoc]
    · simp [hact, List.filter_cons, List.append_assoc]

/-- C8: on an initialized session, setCarriers over a valid desired list
    with distinct line ids stores exactly the merged entry for each desired
    trunk keyed by line id (the active flag carried over from the old map),
    dispatches exactly one user.login per desired trunk not currently
    active, and then exactly one logout per old line id absent from the
    desired set.  (mergeTrunk old t).active is the active flag the old map
    holds for the id of t, so the login filter means: new, or known but
    inactive. -/
theorem c8_setCarriers (old : List (String × STrunk)) (ds : List DTrunk)
    (hvalid : ∀ t ∈ ds, t.host ≠ "")
    (hnodup : (ds.map makeLineID).Nodup) :
    setCarriers true old ds =
      (ds.map (fun t => (makeLineID t, mergeTrunk old t)),
       (ds.filter (fun t => !(mergeTrunk old t).active)).map loginOf ++
         (old.filter (fun kv => decide (kv.1 ∉ ds.map makeLineID))).map
           (fun kv => CarrierWire.logout kv.1)) := by
  unfold setCarriers
  rw [setCarriersLoop_spec old ds [] hvalid hnodup (by simp)]
  simp only [List.nil_append, if_pos rfl]
  refine Prod.ext rfl ?_
  show _ ++ _ = _ ++ _
  congr 1
  have hkeys : (ds.map (fun t => (makeLineID t, mergeTrunk old t))).map
      Prod.fst = ds.map makeLineID := by
    rw [List.map_map]
    rfl
  have hpt : ∀ kv ∈ old,
      decide ((ds.map (fun t => (makeLineID t, mergeTrunk old t))).lookup
        kv.1 = none) = decide (kv.1 ∉ ds.map makeLineID) := by
    intro kv _
    rw [decide_eq_decide]
    rw [lookup_eq_none_iff, hkeys]
  rw [List.filter_congr hpt]
  simp

/-- Witness for C8: one already-active trunk is kept quiet, one new trunk
    is logged in, one removed old account is logged out. -/
theorem c8_setCarriers_witness :
    setCarriers true
      [("u1:p1::@h1:", ⟨⟨"h1", none, some "u1", some "p1", none, none⟩,
          "u1:p1::@h1:", true⟩),
       ("u3:p3::@h3:", ⟨⟨"h3", none, some "u3", some "p3", none, none⟩,
          "u3:p3::@h3:", true⟩)]
      [⟨"h1", none, some "u1", some "p1", none, none⟩,
       ⟨"h2", some 5060, some "u2", some "p2", none, none⟩] =
      ([("u1:p1::@h1:", ⟨⟨"h1", none, some "u1", some "p1", none, none⟩,
           "u1:p1::@h1:", true⟩),
        ("u2:p2::@h2:5060", ⟨⟨"h2", some 5060, some "u2", some "p2", none,
           none⟩, "u2:p2::@h2:5060", false⟩)],
       [CarrierWire.login "u2:p2::@h2:5060" (some "u2") (some "p2")
          (some "u2") "h2" "h2:5060",
        CarrierWire.logout "u3:p3::@h3:"]) := by
  rw [c8_setCarriers _ _ (by decide) (by decide)]
  decide
